import Mathlib

/-!
Verification of the amortization / what-if engine of the Loan Navigator
repository (`src/agents/calc_agent.py`, class `WhatIfCalculatorAgent`),
shallowly embedded over `ℚ`.  Python floats are idealized as exact
rationals; Python's built-in `round` is modelled as round-half-even, and
the source's `_round(x) = round(x + 1e-12, 2)` epsilon bias is kept.
All `apply_month` arguments in the claims are ≥ 1, so list indexing
`schedule[apply_month - 1]` is embedded with natural subtraction (Python's
negative-index wrap-around for `apply_month ≤ 0` is out of scope).

The Batteries `Rat` field operations are `@[irreducible]`, which blocks
`decide`/`rfl` evaluation of concrete schedules; they are restored to
`semireducible` so the kernel can compute with them.
-/

attribute [local semireducible] Rat.add Rat.sub Rat.mul Rat.inv

deriving instance DecidableEq for Except

set_option maxRecDepth 20000

namespace LoanNavigator

/-- Round-half-even to an integer, modelling Python's built-in `round`
applied to a real (float) value. -/
def roundHalfEven (x : ℚ) : ℤ :=
  if x - ⌊x⌋ = 1/2 then (if ⌊x⌋ % 2 = 0 then ⌊x⌋ else ⌊x⌋ + 1) else ⌊x + 1/2⌋

/-- Embeds `_round(x) = round(x + 1e-12, 2)` from `calc_agent.py`. -/
def pyRound (x : ℚ) : ℚ := (roundHalfEven ((x + 1/10^12) * 100) : ℚ) / 100

/-- Embeds Python `math.isclose(a, b)` with the default tolerances
`rel_tol = 1e-9`, `abs_tol = 0.0`, i.e.
`|a - b| <= max(rel_tol * max(|a|, |b|), abs_tol)`. -/
def isclose (a b : ℚ) : Bool := |a - b| ≤ max ((1/10^9) * max |a| |b|) 0

/-- One ledger row, embedding class `PaymentRow` of `calc_agent.py`
(fields `month, payment, principal, interest, balance`). -/
structure PaymentRow where
  month : ℕ
  payment : ℚ
  principal : ℚ
  interest : ℚ
  balance : ℚ
deriving DecidableEq, Inhabited

/-- Embeds `PaymentRow.to_dict`, which rounds every monetary field to
2 decimals via `_round`. -/
def PaymentRow.toDict (r : PaymentRow) : PaymentRow :=
  ⟨r.month, pyRound r.payment, pyRound r.principal, pyRound r.interest, pyRound r.balance⟩

/-- The EMI value computed by `WhatIfCalculatorAgent.calculate_emi` on
inputs where the Python code does not raise (`tenure_months ≥ 1`):
monthly rate `R = annual_rate / (12*100)`; if `isclose(R, 0.0)` then
`P / N`, else the closed form `P·R·(1+R)^N / ((1+R)^N − 1)`. -/
def emiVal (loan_amount annual_rate : ℚ) (tenure_months : ℕ) : ℚ :=
  let P := loan_amount
  let N := tenure_months
  let R := annual_rate / (12 * 100)
  if isclose R 0 then P / N
  else P * R * (1 + R) ^ N / ((1 + R) ^ N - 1)

/-- Embeds `WhatIfCalculatorAgent.calculate_emi` in full, including the
inputs on which the Python code raises `ZeroDivisionError` (tenure 0, a
vanishing closed-form denominator, or `0.0 ** negative`).  The tenure is
an `ℤ` because Python `int(tenure_months)` may be negative, and `(1+R)^N`
is then a `zpow`. -/
def calculate_emi (loan_amount annual_rate : ℚ) (tenure_months : ℤ) : Except String ℚ :=
  let P := loan_amount
  let N := tenure_months
  let R := annual_rate / (12 * 100)
  if isclose R 0 then
    if N = 0 then .error "ZeroDivisionError" else .ok (P / N)
  else
    if 1 + R = 0 ∧ N < 0 then .error "ZeroDivisionError"
    else if (1 + R) ^ N - 1 = 0 then .error "ZeroDivisionError"
    else .ok (P * R * (1 + R) ^ N / ((1 + R) ^ N - 1))

/-- One iteration of the month loop of
`WhatIfCalculatorAgent.amortization_schedule`:
`interest = balance·R`, `principal = emi − interest`; when
`principal > balance` the early-payoff clamp sets `principal = balance`
and the payment becomes `principal + interest`, otherwise the payment is
`emi`; the stored balance is `balance − principal`. -/
def stepRow (R emi : ℚ) (month : ℕ) (balance : ℚ) : PaymentRow :=
  let interest := balance * R
  let principal0 := emi - interest
  if principal0 > balance then
    ⟨month, balance + interest, balance, interest, balance - balance⟩
  else
    ⟨month, emi, principal0, interest, balance - principal0⟩

/-- The month loop of `WhatIfCalculatorAgent.amortization_schedule`:
`fuel` is the number of months still allowed by `range(1, N+1)`, `month`
the current 1-indexed month, `balance` the running balance.  Each step
appends the row built by `stepRow` and breaks once the new balance is
`≤ 1e-9`. -/
def scheduleAux (R emi : ℚ) : ℕ → ℕ → ℚ → List PaymentRow
  | 0, _, _ => []
  | fuel + 1, month, balance =>
    let row := stepRow R emi month balance
    if row.balance ≤ 1/10^9 then [row]
    else row :: scheduleAux R emi fuel (month + 1) row.balance

/-- The value returned by `amortization_schedule`: the rounded EMI, the
rows rounded through `to_dict`, and the totals obtained by summing the
unrounded per-row payment/interest and rounding each sum once. -/
structure AmortSummary where
  emi : ℚ
  schedule : List PaymentRow
  total_payment : ℚ
  total_interest : ℚ
deriving DecidableEq, Inhabited

/-- The raw (unrounded) row list built by the loop of
`amortization_schedule`, before `to_dict` rounding. -/
def rawSchedule (loan_amount annual_rate : ℚ) (tenure_months : ℕ) (emi? : Option ℚ) :
    List PaymentRow :=
  let R := annual_rate / (12 * 100)
  let emi := emi?.getD (emiVal loan_amount annual_rate tenure_months)
  scheduleAux R emi tenure_months 1 loan_amount

/-- Embeds `WhatIfCalculatorAgent.amortization_schedule` (for
`tenure_months ≥ 1`, where the internal `calculate_emi` call cannot
raise). -/
def amortization_schedule (loan_amount annual_rate : ℚ) (tenure_months : ℕ)
    (emi? : Option ℚ) : AmortSummary :=
  let emi := emi?.getD (emiVal loan_amount annual_rate tenure_months)
  let sched := rawSchedule loan_amount annual_rate tenure_months emi?
  { emi := pyRound emi
    schedule := sched.map PaymentRow.toDict
    total_payment := pyRound (sched.map (·.payment)).sum
    total_interest := pyRound (sched.map (·.interest)).sum }

/-- The dictionary returned by `simulate_prepayment` on success. -/
structure PrepaymentResult where
  mode : String
  interest_saved : ℚ
  new_schedule : List PaymentRow
  new_tenure : ℕ
deriving DecidableEq, Inhabited

/-- Embeds `WhatIfCalculatorAgent.simulate_prepayment`: build the baseline
schedule, error when `apply_month` exceeds its length, read the (rounded)
balance at `apply_month`, subtract the prepayment (clamped at 0), and
either splice a freshly built tail schedule over
`len(schedule) - apply_month + 1` months or cut the schedule at
`apply_month` when the prepayment retires the loan. -/
def simulate_prepayment (loan_amount annual_rate : ℚ) (tenure_months : ℕ)
    (prepayment_amount : ℚ) (apply_month : Option ℕ) : Except String PrepaymentResult :=
  let m := apply_month.getD 1
  let summary := amortization_schedule loan_amount annual_rate tenure_months none
  let schedule := summary.schedule
  if m > schedule.length then .error "Apply month beyond tenure"
  else
    let outstanding := (schedule.getD (m - 1) default).balance
    let remaining_principal0 := outstanding - prepayment_amount
    let remaining_principal := if remaining_principal0 < 0 then 0 else remaining_principal0
    let remaining_months := schedule.length - m + 1
    if remaining_principal > 0 then
      let new_summary := amortization_schedule remaining_principal annual_rate remaining_months none
      .ok { mode := "reduce_tenure"
            interest_saved := pyRound (summary.total_interest - new_summary.total_interest)
            new_schedule := schedule.take m ++ new_summary.schedule
            new_tenure := (schedule.take m ++ new_summary.schedule).length }
    else
      .ok { mode := "reduce_tenure"
            interest_saved := pyRound summary.total_interest
            new_schedule := schedule.take m
            new_tenure := (schedule.take m).length }

/-- The dictionary returned by `simulate_tenure_change` as the spec
describes it (two summaries plus the EMI and interest deltas). -/
structure TenureChangeResult where
  original_summary : AmortSummary
  new_summary : AmortSummary
  delta_emi : ℚ
  interest_saved : ℚ
deriving DecidableEq, Inhabited

/-- Embeds `WhatIfCalculatorAgent.simulate_tenure_change`.  Its Python
body reads the name `original_tenure` in its very first statement
(`old_summary = self.amortization_schedule(loan_amount, annual_rate,
original_tenure)`), but no such name is bound anywhere (the parameter is
`tenure_months`), so every call raises `NameError` before computing
anything. -/
def simulate_tenure_change (loan_amount annual_rate : ℚ)
    (tenure_months new_tenure_months : ℕ) : Except String TenureChangeResult :=
  .error "NameError: name original_tenure is not defined"

/-- The record returned by the top-up eligibility rule. -/
structure TopupEligibility where
  eligible : Bool
  maxTopupAmount : Option ℚ
  reason : Option String
deriving DecidableEq, Inhabited

/-- The fixed ineligibility reason text of the top-up rule. -/
def topupIneligibleReason : String := "Customer is not eligible for a top-up loan"

/-- Modelled from the spec: `check_topup_eligibility` is invoked as
`self.calc_agent.check_topup_eligibility(True, outstanding_principal)` in
`SupervisorAgent.handle_query` (supervisor_agent.py) but no definition of
it exists anywhere in the repository source; spec section 4.5 gives its
contract: if `isEligible` is false, return ineligible with a fixed reason
string, else return eligible with
`maxTopup = max(outstandingPrincipal × 0.5, minAmount)` rounded to
2 decimals (`minAmount` defaults to 1000). -/
def check_topup_eligibility (isEligible : Bool) (outstandingPrincipal minAmount : ℚ) :
    TopupEligibility :=
  if isEligible then
    { eligible := true
      maxTopupAmount := some (pyRound (max (outstandingPrincipal * (1/2)) minAmount))
      reason := none }
  else
    { eligible := false, maxTopupAmount := none, reason := some topupIneligibleReason }

/-! ### Properties of the rounding model -/

theorem floor_le_roundHalfEven (x : ℚ) : ⌊x⌋ ≤ roundHalfEven x := by
  unfold roundHalfEven
  split_ifs
  · omega
  · omega
  · exact Int.floor_mono (by linarith)

theorem roundHalfEven_le_floor_add_one (x : ℚ) : roundHalfEven x ≤ ⌊x⌋ + 1 := by
  unfold roundHalfEven
  split_ifs
  · omega
  · omega
  · have h1 : x + 1/2 ≤ x + (1 : ℤ) := by push_cast; linarith
    calc ⌊x + 1/2⌋ ≤ ⌊x + (1 : ℤ)⌋ := Int.floor_mono h1
    _ = ⌊x⌋ + 1 := Int.floor_add_int x 1

theorem roundHalfEven_mono {x y : ℚ} (h : x ≤ y) : roundHalfEven x ≤ roundHalfEven y := by
  rcases eq_or_lt_of_le h with rfl | hlt
  · exact le_refl _
  have hf : ⌊x⌋ ≤ ⌊y⌋ := Int.floor_mono h
  unfold roundHalfEven
  split_ifs with hx hex hy hy2 hy3 hey hy4
  · -- x tie (even floor), y tie (even floor)
    have : (⌊x⌋ : ℚ) < ⌊y⌋ := by linarith [hx, hy]
    have := Int.cast_lt.mp this
    omega
  · -- x tie (even), y tie (odd)
    have : (⌊x⌋ : ℚ) < ⌊y⌋ := by linarith [hx, hy2]
    have := Int.cast_lt.mp this
    omega
  · -- x tie (even), y not tie
    have hxv : x = (⌊x⌋ : ℚ) + 1/2 := by linarith [hx]
    have h1 : ((⌊x⌋ + 1 : ℤ) : ℚ) ≤ y + 1/2 := by push_cast; linarith
    have := Int.le_floor.mpr h1
    omega
  · -- x tie (odd), y tie (even)
    have : (⌊x⌋ : ℚ) < ⌊y⌋ := by linarith [hx, hy3]
    have := Int.cast_lt.mp this
    omega
  · -- x tie (odd), y tie (odd)
    have : (⌊x⌋ : ℚ) < ⌊y⌋ := by linarith [hx, hey]
    have := Int.cast_lt.mp this
    omega
  · -- x tie (odd), y not tie
    have h1 : ((⌊x⌋ + 1 : ℤ) : ℚ) ≤ y + 1/2 := by push_cast; linarith [hx]
    have := Int.le_floor.mpr h1
    omega
  · -- x not tie, y tie (even)
    have h1 : x + 1/2 < (⌊y⌋ : ℚ) + 1 := by linarith [hy4]
    have h2 : ⌊x + 1/2⌋ < ⌊y⌋ + 1 := Int.floor_lt.mpr (by push_cast; linarith)
    omega
  · -- x not tie, y tie (odd)
    have h2 : ⌊x + 1/2⌋ < ⌊y⌋ + 1 := Int.floor_lt.mpr (by push_cast; linarith)
    omega
  · -- neither tie
    exact Int.floor_mono (by linarith)

theorem pyRound_mono {x y : ℚ} (h : x ≤ y) : pyRound x ≤ pyRound y := by
  unfold pyRound
  have h1 : (x + 1/10^12) * 100 ≤ (y + 1/10^12) * 100 := by linarith
  have h2 := roundHalfEven_mono h1
  have h3 : ((roundHalfEven ((x + 1/10^12) * 100) : ℚ)) ≤
      ((roundHalfEven ((y + 1/10^12) * 100) : ℚ)) := Int.cast_le.mpr h2
  linarith

theorem pyRound_nonneg {x : ℚ} (h : 0 ≤ x) : 0 ≤ pyRound x := by
  unfold pyRound
  have h1 : (0 : ℚ) ≤ (x + 1/10^12) * 100 := by linarith
  have h2 : (0 : ℤ) ≤ ⌊(x + 1/10^12) * 100⌋ := Int.floor_nonneg.mpr h1
  have h3 := floor_le_roundHalfEven ((x + 1/10^12) * 100)
  have h4 : (0 : ℚ) ≤ (roundHalfEven ((x + 1/10^12) * 100) : ℚ) := by
    exact_mod_cast le_trans h2 h3
  positivity

theorem pyRound_int_div (k : ℤ) : pyRound ((k : ℚ) / 100) = (k : ℚ) / 100 := by
  unfold pyRound
  have h1 : ((k : ℚ)/100 + 1/10^12) * 100 = (k : ℚ) + 1/10^10 := by ring
  rw [h1]
  have hsmall : ⌊(1/10^10 : ℚ)⌋ = 0 := by decide
  have hf : ⌊(k : ℚ) + 1/10^10⌋ = k := by
    rw [Int.floor_int_add, hsmall, add_zero]
  have h2 : roundHalfEven ((k : ℚ) + 1/10^10) = k := by
    unfold roundHalfEven
    rw [hf]
    rw [if_neg (by norm_num)]
    have h3 : (k : ℚ) + 1/10^10 + 1/2 = (k : ℚ) + (1/10^10 + 1/2) := by ring
    rw [h3, Int.floor_int_add]
    norm_num
  rw [h2]

theorem pyRound_idem (x : ℚ) : pyRound (pyRound x) = pyRound x :=
  pyRound_int_div (roundHalfEven ((x + 1/10^12) * 100))

theorem pyRound_small {b : ℚ} (h0 : 0 ≤ b) (h1 : b ≤ 1/10^9) : pyRound b = 0 := by
  unfold pyRound
  have hy0 : (0 : ℚ) ≤ (b + 1/10^12) * 100 := by linarith
  have hy1 : (b + 1/10^12) * 100 < 1/2 := by linarith
  have hf : ⌊(b + 1/10^12) * 100⌋ = 0 := by
    rw [Int.floor_eq_zero_iff]
    constructor
    · exact hy0
    · linarith
  have h2 : roundHalfEven ((b + 1/10^12) * 100) = 0 := by
    unfold roundHalfEven
    rw [hf]
    rw [if_neg (by push_cast; linarith)]
    have : ⌊(b + 1/10^12) * 100 + 1/2⌋ = 0 := by
      rw [Int.floor_eq_zero_iff]
      constructor
      · linarith
      · linarith
    simpa using this
  rw [h2]
  norm_num

theorem isclose_zero_iff (r : ℚ) : isclose r 0 = true ↔ r = 0 := by
  unfold isclose
  rw [decide_eq_true_eq, sub_zero]
  constructor
  · intro h
    by_contra hr
    have habs : 0 < |r| := abs_pos.mpr hr
    have hmax : max ((1/10^9) * max |r| |0|) 0 = (1/10^9) * |r| := by
      rw [abs_zero, max_eq_left habs.le, max_eq_left (by positivity)]
    rw [hmax] at h
    nlinarith
  · intro h
    subst h
    norm_num

/-! ### Properties of the schedule loop -/

theorem stepRow_interest (R emi : ℚ) (month : ℕ) (b : ℚ) :
    (stepRow R emi month b).interest = b * R := by
  simp only [stepRow]
  split_ifs <;> rfl

theorem stepRow_balance_nonneg (R emi : ℚ) (month : ℕ) (b : ℚ) :
    0 ≤ (stepRow R emi month b).balance := by
  simp only [stepRow]
  split_ifs with h
  · simp
  · have : emi - b * R ≤ b := not_lt.mp h
    simp only
    linarith

theorem stepRow_balance_le (R emi : ℚ) (month : ℕ) (b : ℚ)
    (hb : 0 ≤ b) (hemi : b * R ≤ emi) :
    (stepRow R emi month b).balance ≤ b := by
  simp only [stepRow]
  split_ifs with h
  · simpa using hb
  · simp only
    linarith

theorem stepRow_balance_cases (R emi : ℚ) (month : ℕ) (b : ℚ) :
    (stepRow R emi month b).balance = 0 ∨
      (stepRow R emi month b).balance = b * (1 + R) - emi := by
  simp only [stepRow]
  split_ifs with h
  · left; simp
  · right; simp only; ring

theorem scheduleAux_ne_nil (R emi : ℚ) (fuel month : ℕ) (b : ℚ) :
    scheduleAux R emi (fuel + 1) month b ≠ [] := by
  rw [scheduleAux]
  split <;> simp

theorem scheduleAux_balance_nonneg (R emi : ℚ) :
    ∀ (fuel month : ℕ) (b : ℚ), ∀ r ∈ scheduleAux R emi fuel month b, 0 ≤ r.balance := by
  intro fuel
  induction fuel with
  | zero => intro month b r hr; simp [scheduleAux] at hr
  | succ n ih =>
    intro month b r hr
    rw [scheduleAux] at hr
    split at hr
    · rw [List.mem_singleton] at hr
      exact hr ▸ stepRow_balance_nonneg R emi month b
    · rcases List.mem_cons.mp hr with rfl | hmem
      · exact stepRow_balance_nonneg R emi month b
      · exact ih (month + 1) _ r hmem

theorem scheduleAux_chain (R emi : ℚ) (hR : 0 ≤ R) :
    ∀ (fuel month : ℕ) (b : ℚ) (a : PaymentRow), b ≤ a.balance → 0 ≤ b → b * R ≤ emi →
      List.Chain (fun p q => q.balance ≤ p.balance) a (scheduleAux R emi fuel month b) := by
  intro fuel
  induction fuel with
  | zero => intro month b a _ _ _; simp [scheduleAux]
  | succ n ih =>
    intro month b a hab hb hemi
    have hrow : (stepRow R emi month b).balance ≤ a.balance :=
      le_trans (stepRow_balance_le R emi month b hb hemi) hab
    rw [scheduleAux]
    split
    · exact List.Chain.cons hrow List.Chain.nil
    · refine List.Chain.cons hrow ?_
      refine ih (month + 1) (stepRow R emi month b).balance (stepRow R emi month b)
        (le_refl _) (stepRow_balance_nonneg R emi month b) ?_
      have h1 : (stepRow R emi month b).balance ≤ b :=
        stepRow_balance_le R emi month b hb hemi
      calc (stepRow R emi month b).balance * R ≤ b * R :=
            mul_le_mul_of_nonneg_right h1 hR
      _ ≤ emi := hemi

theorem scheduleAux_getLast_le (R emi : ℚ) (hR : R ≠ 0) :
    ∀ (fuel month : ℕ) (b : ℚ), 1 ≤ fuel →
      b * R * (1 + R) ^ fuel = emi * ((1 + R) ^ fuel - 1) →
      ∀ r, (scheduleAux R emi fuel month b).getLast? = some r → r.balance ≤ 1/10^9 := by
  intro fuel
  induction fuel with
  | zero => omega
  | succ n ih =>
    intro month b _ hinv r hr
    rw [scheduleAux] at hr
    split at hr
    · next hle =>
      rw [List.getLast?_singleton, Option.some.injEq] at hr
      exact hr ▸ hle
    · next hgt =>
      rcases Nat.eq_zero_or_pos n with rfl | hn
      · -- fuel = 1 : the recursive call is empty, last row is the step row
        rw [show scheduleAux R emi 0 (month + 1) (stepRow R emi month b).balance = []
            from rfl] at hr
        rw [List.getLast?_singleton, Option.some.injEq] at hr
        subst hr
        rcases stepRow_balance_cases R emi month b with hc | hc
        · rw [hc]; norm_num
        · exfalso
          apply hgt
          rw [hc]
          rw [pow_one] at hinv
          have hb1 : b * (1 + R) - emi = 0 := by
            have h2 : (b * (1 + R) - emi) * R = 0 := by ring_nf; ring_nf at hinv; linarith
            rcases mul_eq_zero.mp h2 with h3 | h3
            · exact h3
            · exact absurd h3 hR
          rw [hb1]
          norm_num
      · -- fuel = n + 1 ≥ 2 : recurse on the tail
        have hne := scheduleAux_ne_nil R emi (n - 1) (month + 1) (stepRow R emi month b).balance
        rw [show n - 1 + 1 = n from by omega] at hne
        obtain ⟨hd, tl, heq⟩ := List.exists_cons_of_ne_nil hne
        rw [heq, List.getLast?_cons_cons, ← heq] at hr
        -- the clamp cannot have fired, or the balance would be 0 ≤ 1e-9
        rcases stepRow_balance_cases R emi month b with hc | hc
        · exact absurd (by rw [hc]; norm_num) hgt
        · refine ih (month + 1) (stepRow R emi month b).balance hn ?_ r hr
          rw [hc]
          rw [pow_succ] at hinv
          have hx : b * R * ((1 + R) ^ n * (1 + R)) = emi * ((1 + R) ^ n * (1 + R) - 1) :=
            hinv
          linear_combination hx

theorem scheduleAux_getLast_le_zeroR (emi : ℚ) :
    ∀ (fuel month : ℕ) (b : ℚ), 1 ≤ fuel → b = fuel * emi →
      ∀ r, (scheduleAux 0 emi fuel month b).getLast? = some r → r.balance ≤ 1/10^9 := by
  intro fuel
  induction fuel with
  | zero => omega
  | succ n ih =>
    intro month b _ hinv r hr
    rw [scheduleAux] at hr
    split at hr
    · next hle =>
      rw [List.getLast?_singleton, Option.some.injEq] at hr
      exact hr ▸ hle
    · next hgt =>
      rcases Nat.eq_zero_or_pos n with rfl | hn
      · rw [show scheduleAux 0 emi 0 (month + 1) (stepRow 0 emi month b).balance = []
            from rfl] at hr
        rw [List.getLast?_singleton, Option.some.injEq] at hr
        subst hr
        rcases stepRow_balance_cases 0 emi month b with hc | hc
        · rw [hc]; norm_num
        · exfalso
          apply hgt
          rw [hc, hinv]
          push_cast
          ring_nf
          norm_num
      · have hne := scheduleAux_ne_nil 0 emi (n - 1) (month + 1) (stepRow 0 emi month b).balance
        rw [show n - 1 + 1 = n from by omega] at hne
        obtain ⟨hd, tl, heq⟩ := List.exists_cons_of_ne_nil hne
        rw [heq, List.getLast?_cons_cons, ← heq] at hr
        rcases stepRow_balance_cases 0 emi month b with hc | hc
        · exact absurd (by rw [hc]; norm_num) hgt
        · refine ih (month + 1) (stepRow 0 emi month b).balance hn ?_ r hr
          rw [hc, hinv]
          push_cast
          ring

theorem scheduleAux_interest_zero (emi : ℚ) :
    ∀ (fuel month : ℕ) (b : ℚ), ∀ r ∈ scheduleAux 0 emi fuel month b, r.interest = 0 := by
  intro fuel
  induction fuel with
  | zero => intro month b r hr; simp [scheduleAux] at hr
  | succ n ih =>
    intro month b r hr
    rw [scheduleAux] at hr
    split at hr
    · rw [List.mem_singleton] at hr
      subst hr
      rw [stepRow_interest 0 emi month b]
      ring
    · rcases List.mem_cons.mp hr with rfl | hmem
      · rw [stepRow_interest 0 emi month b]; ring
      · exact ih (month + 1) _ r hmem

/-! ### Properties of `emiVal` and `rawSchedule` -/

theorem emiVal_zero_rate (P : ℚ) (N : ℕ) : emiVal P 0 N = P / N := by
  simp only [emiVal]
  rw [if_pos ((isclose_zero_iff _).mpr (by norm_num))]

theorem emiVal_pos_rate (P rate : ℚ) (N : ℕ) (hr : 0 < rate) :
    emiVal P rate N =
      P * (rate / (12 * 100)) * (1 + rate / (12 * 100)) ^ N /
        ((1 + rate / (12 * 100)) ^ N - 1) := by
  simp only [emiVal]
  rw [if_neg]
  intro h
  have := (isclose_zero_iff _).mp h
  have h1200 : (0 : ℚ) < 12 * 100 := by norm_num
  rw [div_eq_zero_iff] at this
  rcases this with h2 | h2
  · exact absurd h2 (ne_of_gt hr)
  · exact absurd h2 (ne_of_gt h1200)

theorem one_lt_pow_rate (rate : ℚ) (N : ℕ) (hr : 0 < rate) (hN : 1 ≤ N) :
    1 < (1 + rate / (12 * 100)) ^ N := by
  have hR : 0 < rate / (12 * 100) := by positivity
  exact one_lt_pow₀ (by linarith) (by omega)

theorem emiVal_ge (P rate : ℚ) (N : ℕ) (hP : 0 < P) (hr : 0 ≤ rate) (hN : 1 ≤ N) :
    P * (rate / (12 * 100)) ≤ emiVal P rate N := by
  rcases eq_or_lt_of_le hr with hrate0 | hratepos
  · rw [← hrate0, emiVal_zero_rate]
    have hNQ : (0 : ℚ) < (N : ℚ) := by exact_mod_cast Nat.lt_of_lt_of_le Nat.zero_lt_one hN
    have : (0 : ℚ) ≤ P / N := le_of_lt (div_pos hP hNQ)
    calc P * (0 / (12 * 100)) = 0 := by ring
    _ ≤ P / N := this
  · rw [emiVal_pos_rate P rate N hratepos]
    set R := rate / (12 * 100) with hRdef
    have hR : 0 < R := by rw [hRdef]; positivity
    have hx : 1 < (1 + R) ^ N := one_lt_pow_rate rate N hratepos hN
    rw [le_div_iff₀ (by linarith)]
    nlinarith

theorem rawSchedule_getLast_le (P rate : ℚ) (N : ℕ)
    (hP : 0 < P) (hr : 0 ≤ rate) (hN : 1 ≤ N) :
    ∀ r, (rawSchedule P rate N none).getLast? = some r → r.balance ≤ 1/10^9 := by
  intro r hlast
  simp only [rawSchedule, Option.getD_none] at hlast
  rcases eq_or_lt_of_le hr with hrate0 | hratepos
  · rw [← hrate0] at hlast
    rw [show (0 : ℚ) / (12 * 100) = 0 from by norm_num] at hlast
    refine scheduleAux_getLast_le_zeroR (emiVal P 0 N) N 1 P hN ?_ r hlast
    rw [emiVal_zero_rate]
    have hNQ : ((N : ℚ)) ≠ 0 := Nat.cast_ne_zero.mpr (by omega)
    field_simp
  · set R := rate / (12 * 100) with hRdef
    have hR : 0 < R := by rw [hRdef]; positivity
    refine scheduleAux_getLast_le R (emiVal P rate N) (ne_of_gt hR) N 1 P hN ?_ r hlast
    rw [emiVal_pos_rate P rate N hratepos, ← hRdef]
    have hx : 1 < (1 + R) ^ N := one_lt_pow_rate rate N hratepos hN
    have hden : (1 + R) ^ N - 1 ≠ 0 := sub_ne_zero.mpr (ne_of_gt hx)
    rw [div_mul_cancel₀ _ hden]

theorem rawSchedule_ne_nil (P rate : ℚ) (N : ℕ) (hN : 1 ≤ N) :
    rawSchedule P rate N none ≠ [] := by
  obtain ⟨n, rfl⟩ := Nat.exists_eq_add_of_le hN
  simp only [rawSchedule, Option.getD_none]
  rw [show 1 + n = n + 1 from by omega]
  exact scheduleAux_ne_nil _ _ n 1 P

theorem amort_schedule_eq (P rate : ℚ) (N : ℕ) (emi? : Option ℚ) :
    (amortization_schedule P rate N emi?).schedule =
      (rawSchedule P rate N emi?).map PaymentRow.toDict := rfl

theorem amort_total_payment_eq (P rate : ℚ) (N : ℕ) (emi? : Option ℚ) :
    (amortization_schedule P rate N emi?).total_payment =
      pyRound ((rawSchedule P rate N emi?).map (·.payment)).sum := rfl

theorem amort_total_interest_eq (P rate : ℚ) (N : ℕ) (emi? : Option ℚ) :
    (amortization_schedule P rate N emi?).total_interest =
      pyRound ((rawSchedule P rate N emi?).map (·.interest)).sum := rfl

/-! ### Claim theorems -/

/-- C6: for every valid LoanTerms (`principal > 0`, `tenureMonths ≥ 1`,
`annualRatePercent ≥ 0`), in the schedule produced by
`amortization_schedule` the `balance` values are monotonically
non-increasing across the rows, no row has a negative `balance`, and the
final row's `balance` is within `1e-6` of zero. -/
theorem C6_schedule_invariants (P rate : ℚ) (N : ℕ)
    (hP : 0 < P) (hr : 0 ≤ rate) (hN : 1 ≤ N) :
    List.Chain' (fun p q : PaymentRow => q.balance ≤ p.balance)
        (amortization_schedule P rate N none).schedule ∧
    (∀ r ∈ (amortization_schedule P rate N none).schedule, 0 ≤ r.balance) ∧
    (∃ lastRow, (amortization_schedule P rate N none).schedule.getLast? = some lastRow ∧
      |lastRow.balance| ≤ 1/10^6) := by
  have hR : 0 ≤ rate / (12 * 100) := by positivity
  refine ⟨?_, ?_, ?_⟩
  · -- monotone non-increasing balances
    have hchain : List.Chain (fun p q : PaymentRow => q.balance ≤ p.balance)
        ⟨0, 0, 0, 0, P⟩ (rawSchedule P rate N none) := by
      simp only [rawSchedule, Option.getD_none]
      exact scheduleAux_chain _ _ hR N 1 P ⟨0, 0, 0, 0, P⟩ (le_refl P) hP.le
        (emiVal_ge P rate N hP hr hN)
    have hchain2 : List.Chain' (fun p q : PaymentRow => q.balance ≤ p.balance)
        ((⟨0, 0, 0, 0, P⟩ : PaymentRow) :: rawSchedule P rate N none) := hchain
    have hchain' : List.Chain' (fun p q : PaymentRow => q.balance ≤ p.balance)
        (rawSchedule P rate N none) := List.Chain'.tail hchain2
    rw [amort_schedule_eq]
    exact List.chain'_map_of_chain' PaymentRow.toDict
      (fun p q h => pyRound_mono h) hchain'
  · -- no negative balances
    intro r hrmem
    rw [amort_schedule_eq] at hrmem
    obtain ⟨r0, hr0, rfl⟩ := List.mem_map.mp hrmem
    have : 0 ≤ r0.balance := by
      simp only [rawSchedule, Option.getD_none] at hr0
      exact scheduleAux_balance_nonneg _ _ N 1 P r0 hr0
    exact pyRound_nonneg this
  · -- final balance within 1e-6 of zero
    cases hlast : (rawSchedule P rate N none).getLast? with
    | none =>
      exact absurd (List.getLast?_eq_none_iff.mp hlast) (rawSchedule_ne_nil P rate N hN)
    | some r0 =>
      refine ⟨PaymentRow.toDict r0, ?_, ?_⟩
      · rw [amort_schedule_eq, List.getLast?_map, hlast]
        rfl
      · have h9 : r0.balance ≤ 1/10^9 := rawSchedule_getLast_le P rate N hP hr hN r0 hlast
        have h0 : 0 ≤ r0.balance := by
          have hmem := List.mem_of_getLast?_eq_some hlast
          simp only [rawSchedule, Option.getD_none] at hmem
          exact scheduleAux_balance_nonneg _ _ N 1 P r0 hmem
        have : (PaymentRow.toDict r0).balance = 0 := pyRound_small h0 h9
        rw [this]
        norm_num

/-- C6 witness: the invariants hold for the concrete loan
`principal = 1000`, `rate = 12%`, `tenure = 2`. -/
theorem C6_schedule_invariants_witness :
    (0 : ℚ) < 1000 ∧ (0 : ℚ) ≤ 12 ∧ 1 ≤ 2 ∧
    (List.Chain' (fun p q : PaymentRow => q.balance ≤ p.balance)
        (amortization_schedule 1000 12 2 none).schedule ∧
    (∀ r ∈ (amortization_schedule 1000 12 2 none).schedule, 0 ≤ r.balance) ∧
    (∃ lastRow, (amortization_schedule 1000 12 2 none).schedule.getLast? = some lastRow ∧
      |lastRow.balance| ≤ 1/10^6)) :=
  ⟨by norm_num, by norm_num, by norm_num,
    C6_schedule_invariants 1000 12 2 (by norm_num) (by norm_num) (by norm_num)⟩

/-- C7: at a zero annual rate, `calculate_emi` returns exactly
`principal / tenureMonths`, and every row of the schedule produced by
`amortization_schedule` has interest component 0. -/
theorem C7_zero_rate (P : ℚ) (N : ℕ) (hP : 0 < P) (hN : 1 ≤ N) :
    calculate_emi P 0 (N : ℤ) = .ok (P / (N : ℚ)) ∧
    ∀ r ∈ (amortization_schedule P 0 N none).schedule, r.interest = 0 := by
  constructor
  · simp only [calculate_emi]
    rw [if_pos ((isclose_zero_iff _).mpr (by norm_num))]
    rw [if_neg (by exact_mod_cast (by omega : ¬ (N = 0)))]
    norm_num
  · intro r hrmem
    rw [amort_schedule_eq] at hrmem
    obtain ⟨r0, hr0, rfl⟩ := List.mem_map.mp hrmem
    simp only [rawSchedule, Option.getD_none] at hr0
    rw [show (0 : ℚ) / (12 * 100) = 0 from by norm_num] at hr0
    have hz : r0.interest = 0 := scheduleAux_interest_zero _ N 1 P r0 hr0
    show pyRound r0.interest = 0
    rw [hz]
    exact pyRound_small (le_refl 0) (by norm_num)

/-- C7 witness: the zero-rate special case at
`principal = 100000`, `tenure = 10` (spec scenario 2). -/
theorem C7_zero_rate_witness :
    (0 : ℚ) < 100000 ∧ 1 ≤ 10 ∧
    (calculate_emi 100000 0 ((10 : ℕ) : ℤ) = .ok (100000 / ((10 : ℕ) : ℚ)) ∧
    ∀ r ∈ (amortization_schedule 100000 0 10 none).schedule, r.interest = 0) :=
  ⟨by norm_num, by norm_num, C7_zero_rate 100000 10 (by norm_num) (by norm_num)⟩

/-- C5: when the prepayment is at least the schedule's recorded balance at
`apply_month`, `simulate_prepayment` returns exactly the first
`apply_month` rows of the baseline schedule, `new_tenure = apply_month`,
and `interest_saved` equal to the baseline `total_interest`. -/
theorem C5_full_prepayment_payoff (P rate : ℚ) (N : ℕ) (prepay : ℚ) (m : ℕ)
    (hP : 0 < P) (hr : 0 ≤ rate) (hN : 1 ≤ N)
    (hm1 : 1 ≤ m) (hm2 : m ≤ (amortization_schedule P rate N none).schedule.length)
    (hpre : ((amortization_schedule P rate N none).schedule.getD (m - 1) default).balance
      ≤ prepay) :
    simulate_prepayment P rate N prepay (some m) =
      .ok { mode := "reduce_tenure"
            interest_saved := (amortization_schedule P rate N none).total_interest
            new_schedule := (amortization_schedule P rate N none).schedule.take m
            new_tenure := m } := by
  simp only [simulate_prepayment, Option.getD_some]
  rw [if_neg (by omega : ¬ m > (amortization_schedule P rate N none).schedule.length)]
  have hcond : ¬ ((if ((amortization_schedule P rate N none).schedule.getD
        (m - 1) default).balance - prepay < 0 then (0 : ℚ)
      else ((amortization_schedule P rate N none).schedule.getD
        (m - 1) default).balance - prepay) > 0) := by
    split_ifs with h
    · norm_num
    · linarith
  rw [if_neg hcond]
  have h_ti : pyRound (amortization_schedule P rate N none).total_interest =
      (amortization_schedule P rate N none).total_interest := by
    rw [amort_total_interest_eq]
    exact pyRound_idem _
  have h_len : ((amortization_schedule P rate N none).schedule.take m).length = m := by
    rw [List.length_take]
    omega
  rw [h_ti, h_len]

/-- C5 witness: the loan `principal = 1000, rate = 12%, tenure = 2` with
prepayment `1000 ≥ 502.49` at month 1 is retired at month 1 and saves
the whole baseline interest. -/
theorem C5_full_prepayment_payoff_witness :
    (0 : ℚ) < 1000 ∧ (0 : ℚ) ≤ 12 ∧ 1 ≤ 2 ∧ 1 ≤ 1 ∧
    1 ≤ (amortization_schedule 1000 12 2 none).schedule.length ∧
    ((amortization_schedule 1000 12 2 none).schedule.getD 0 default).balance ≤ 1000 ∧
    simulate_prepayment 1000 12 2 1000 (some 1) =
      .ok { mode := "reduce_tenure"
            interest_saved := (amortization_schedule 1000 12 2 none).total_interest
            new_schedule := (amortization_schedule 1000 12 2 none).schedule.take 1
            new_tenure := 1 } :=
  ⟨by norm_num, by norm_num, by norm_num, by norm_num, by decide, by decide,
    C5_full_prepayment_payoff 1000 12 2 1000 1 (by norm_num) (by norm_num) (by norm_num)
      (by norm_num) (by decide) (by decide)⟩

/-- C9 counterexample: for the valid loan `principal = 1000, rate = 12%,
tenure = 2` and a prepayment strictly between 0 and the recorded balance
at month 1 (namely `502.49 − 1e-10`), the spliced schedule has length 2,
not the claimed `baseline + 1 = 3`, because the tiny rebuilt tail
terminates at its 1e-9 epsilon after a single row. -/
theorem C9_splice_counterexample :
    (0 : ℚ) < 5024899999999/10^10 ∧
    (5024899999999/10^10 : ℚ) <
      ((amortization_schedule 1000 12 2 none).schedule.getD 0 default).balance ∧
    (simulate_prepayment 1000 12 2 (5024899999999/10^10) (some 1)).map
      (fun r => r.new_tenure) = .ok 2 := by
  refine ⟨by norm_num, by decide, by decide⟩

/-- C9 (amended): provided neither the baseline schedule nor the rebuilt
tail terminates early at the 1e-9 epsilon — i.e. the baseline has exactly
`tenureMonths` rows and the tail has exactly
`scheduleLength − applyMonth + 1` rows — a prepayment strictly below the
balance at `apply_month` yields a spliced schedule of length
`tenureMonths + 1`, one month longer than the baseline. -/
theorem C9_splice_length (P rate : ℚ) (N : ℕ) (prepay : ℚ) (m : ℕ)
    (hm1 : 1 ≤ m) (hm2 : m ≤ N)
    (hbase : (amortization_schedule P rate N none).schedule.length = N)
    (hrem : 0 < ((amortization_schedule P rate N none).schedule.getD
      (m - 1) default).balance - prepay)
    (htail : (amortization_schedule
        (((amortization_schedule P rate N none).schedule.getD (m - 1) default).balance - prepay)
        rate (N - m + 1) none).schedule.length = N - m + 1) :
    (simulate_prepayment P rate N prepay (some m)).map (fun r => r.new_tenure) =
      .ok (N + 1) := by
  simp only [simulate_prepayment, Option.getD_some]
  rw [if_neg (by omega)]
  rw [if_neg (not_lt.mpr hrem.le), if_pos hrem]
  simp only [Except.map, List.length_append, List.length_take, hbase]
  rw [htail]
  exact congrArg Except.ok (by omega)

/-- C9 witness: prepaying 100 at month 1 of the
`principal = 1000, rate = 12%, tenure = 2` loan gives a spliced schedule
of 3 = 2 + 1 rows. -/
theorem C9_splice_length_witness :
    1 ≤ 1 ∧ 1 ≤ 2 ∧
    (amortization_schedule 1000 12 2 none).schedule.length = 2 ∧
    (0 : ℚ) < ((amortization_schedule 1000 12 2 none).schedule.getD 0 default).balance - 100 ∧
    (amortization_schedule
        (((amortization_schedule 1000 12 2 none).schedule.getD 0 default).balance - 100)
        12 (2 - 1 + 1) none).schedule.length = 2 - 1 + 1 ∧
    (simulate_prepayment 1000 12 2 100 (some 1)).map (fun r => r.new_tenure) = .ok (2 + 1) :=
  ⟨by norm_num, by norm_num, by decide, by decide, by decide,
    C9_splice_length 1000 12 2 100 1 (by norm_num) (by norm_num) (by decide) (by decide)
      (by decide)⟩

/-- C8 counterexample: for the valid loan
`principal = 100, rate = 12%, tenure = 3`, `total_payment` (102.01,
rounded once after summing the unrounded payments) differs from the sum
of the individually rounded row payments (3 × 34.00 = 102.00). -/
theorem C8_totals_counterexample :
    (amortization_schedule 100 12 3 none).total_payment ≠
      ((amortization_schedule 100 12 3 none).schedule.map (·.payment)).sum := by
  decide

/-- C8 (amended): `total_payment` and `total_interest` are the sums of
the UNROUNDED per-row payment/interest values of the raw row list,
rounded once after summation, while the rows of the returned schedule
are that raw list with each monetary field rounded to 2 decimals. -/
theorem C8_totals_once_rounded (P rate : ℚ) (N : ℕ) (emi? : Option ℚ) :
    ∃ raw : List PaymentRow,
      (amortization_schedule P rate N emi?).schedule = raw.map PaymentRow.toDict ∧
      (amortization_schedule P rate N emi?).total_payment =
        pyRound (raw.map (·.payment)).sum ∧
      (amortization_schedule P rate N emi?).total_interest =
        pyRound (raw.map (·.interest)).sum :=
  ⟨rawSchedule P rate N emi?, rfl, rfl, rfl⟩

/-- C3 counterexample: `calculate_emi` accepts the invalid input
`principal = -1000` (with zero rate and tenure 10) and returns the
numeric result -100 instead of failing with an `InvalidInput` error. -/
theorem C3_no_error_counterexample : calculate_emi (-1000) 0 10 = .ok (-100) := by
  decide

/-- C3 (amended): `calculate_emi` performs no input validation at all: for
every principal (including non-positive ones), every rate above -1200
(including negative ones) and every non-zero tenure (including negative
ones) it returns a numeric result; only `tenure = 0` raises, and that is
an untyped `ZeroDivisionError`, not `InvalidInput`. -/
theorem C3_no_validation (P rate : ℚ) (N : ℤ) (hN : N ≠ 0) (hr : -1200 < rate) :
    ∃ q, calculate_emi P rate N = .ok q := by
  simp only [calculate_emi]
  by_cases hR : rate / (12 * 100) = 0
  · rw [if_pos ((isclose_zero_iff _).mpr hR), if_neg hN]
    exact ⟨_, rfl⟩
  · rw [if_neg (fun h => hR ((isclose_zero_iff _).mp h))]
    have h1 : (0 : ℚ) < 1 + rate / (12 * 100) := by
      have h2 : (-1200 : ℚ) / (12 * 100) < rate / (12 * 100) :=
        (div_lt_div_iff_of_pos_right (by norm_num)).mpr hr
      have h3 : (-1200 : ℚ) / (12 * 100) = -1 := by norm_num
      linarith [h3 ▸ h2]
    rw [if_neg (by rintro ⟨h2, _⟩; linarith)]
    have h1ne : 1 + rate / (12 * 100) ≠ 1 := by
      intro h
      exact hR (by linarith)
    have hzp : (1 + rate / (12 * 100)) ^ N ≠ 1 := fun h =>
      hN (zpow_right_injective₀ h1 h1ne (by simpa using h))
    rw [if_neg (fun h => hzp (sub_eq_zero.mp h))]
    exact ⟨_, rfl⟩

/-- C3 witness: the invalid input `principal = -1000, rate = 12%,
tenure = 12` is not rejected. -/
theorem C3_no_validation_witness :
    ((12 : ℤ) ≠ 0) ∧ ((-1200 : ℚ) < 12) ∧ ∃ q, calculate_emi (-1000) 12 12 = .ok q :=
  ⟨by decide, by norm_num, C3_no_validation (-1000) 12 12 (by decide) (by norm_num)⟩

/-- C10: the zero-rate branch of `calculate_emi` is taken iff the monthly
rate is exactly zero — `math.isclose(R, 0.0)` with the default
`rel_tol = 1e-9, abs_tol = 0.0` degenerates to `R == 0` — and for every
strictly positive rate, however small, the closed-form formula is
used. -/
theorem C10_zero_branch_iff :
    (∀ x : ℚ, isclose x 0 = true ↔ x = 0) ∧
    ∀ (P rate : ℚ) (N : ℤ), 0 < rate → N ≠ 0 →
      calculate_emi P rate N =
        .ok (P * (rate / (12 * 100)) * (1 + rate / (12 * 100)) ^ N /
             ((1 + rate / (12 * 100)) ^ N - 1)) := by
  refine ⟨isclose_zero_iff, ?_⟩
  intro P rate N hrate hN
  simp only [calculate_emi]
  have hR : 0 < rate / (12 * 100) := by positivity
  rw [if_neg (fun h => absurd ((isclose_zero_iff _).mp h) (ne_of_gt hR))]
  rw [if_neg (by rintro ⟨h2, _⟩; linarith)]
  have h1 : (0 : ℚ) < 1 + rate / (12 * 100) := by linarith
  have h1ne : 1 + rate / (12 * 100) ≠ 1 := by intro h; linarith
  have hzp : (1 + rate / (12 * 100)) ^ N ≠ 1 := fun h =>
    hN (zpow_right_injective₀ h1 h1ne (by simpa using h))
  rw [if_neg (fun h => hzp (sub_eq_zero.mp h))]

/-- C10 witness: even the tiny rate `1e-15` (far below 1e-12) is not
close to zero and takes the closed-form branch. -/
theorem C10_zero_branch_iff_witness :
    (0 : ℚ) < 1/10^15 ∧ (1 : ℤ) ≠ 0 ∧
    calculate_emi 1 (1/10^15) 1 =
      .ok (1 * ((1/10^15) / (12 * 100)) * (1 + (1/10^15) / (12 * 100)) ^ (1 : ℤ) /
           ((1 + (1/10^15) / (12 * 100)) ^ (1 : ℤ) - 1)) :=
  ⟨by norm_num, by decide, C10_zero_branch_iff.2 1 (1/10^15) 1 (by norm_num) (by decide)⟩

/-- C2: the top-up rule (modelled from the spec, the function being
absent from the source) returns ineligible with the fixed reason when
`isEligible` is false, else eligible with
`maxTopup = round2(max(outstanding × 0.5, minAmount))`; in particular
`check_topup_eligibility false 30000` is ineligible and
`check_topup_eligibility true 1000 1000` caps at the 1000 floor. -/
theorem C2_topup_eligibility :
    (∀ op minA : ℚ, check_topup_eligibility false op minA =
      ⟨false, none, some topupIneligibleReason⟩) ∧
    (∀ op minA : ℚ, check_topup_eligibility true op minA =
      ⟨true, some (pyRound (max (op * (1/2)) minA)), none⟩) ∧
    (check_topup_eligibility false 30000 1000).eligible = false ∧
    (check_topup_eligibility true 1000 1000).maxTopupAmount = some 1000 :=
  ⟨fun _ _ => rfl, fun _ _ => rfl, rfl, by decide⟩

/-- C1: `simulate_tenure_change` never returns the claimed comparison of
the two schedules: its first statement reads the unbound name
`original_tenure`, so the concrete call (50000, 12%, 24 → 12 months)
raises `NameError` instead of producing `delta_emi`/`interest_saved`. -/
theorem C1_tenure_change_raises :
    simulate_tenure_change 50000 12 24 12 =
      .error "NameError: name original_tenure is not defined" := rfl

/-- C4: evaluating `simulate_prepayment` on the claimed scenario
(`principal = 50000, rate = 12%, tenure = 24`, prepay 10000 at month 6):
the result has `new_tenure = 25` — one month MORE than the original 24,
not fewer as the claim requires — while `interest_saved = 3543.24 > 0`
as claimed. -/
theorem C4_prepayment_month6_eval :
    (simulate_prepayment 50000 12 24 10000 (some 6)).map
      (fun r => (r.new_tenure, r.interest_saved)) = .ok (25, 88581/25) := by
  decide

end LoanNavigator
